import Mathlib

/-!
A shallow embedding of the MasteryForge adaptive-tutoring core
(`mastery/engine.py`, `mastery/graph.py`, `mastery/models.py`,
`content/models.py`, and the deterministic fallback paths of
`ai/provider.py`) together with theorems checking the repository's
specification claims against it.

Modelling conventions:
* Django model rows become Lean structures; a database snapshot is a `DB`
  record holding the three tables the engine reads and writes.
* Python floats are modelled by `ℚ` (the engine's arithmetic on the
  0.15/0.05/... deltas is exact decimal arithmetic at these magnitudes).
* Timestamps are `Nat`; `datetime.min` (the default sort key for a
  never-seen concept) is `0`.
* Querysets become lists; a Django `order_by` (and Python's `sorted`)
  becomes the stable insertion sort `sortBy` with the corresponding boolean
  key comparison, so ties fall back to stored order as a stable sort does.
* The external recommendation adapter's reply is passed in as an explicit
  argument; the "not configured" deterministic fallback inside
  `AIProvider.recommend_concepts` is embedded as its own function.
-/

namespace MasteryForge

abbrev UserId := Nat
abbrev ConceptId := Nat
abbrev CourseId := Nat

/-- `content.models.Concept`: id, course, title, difficulty, order index,
prerequisite many-to-many ids, active flag. -/
structure Concept where
  id : ConceptId
  courseId : CourseId
  title : String
  difficulty : Int
  orderIndex : Int
  prereqIds : List ConceptId
  isActive : Bool
deriving DecidableEq, Repr

/-- `mastery.models.MasteryState`: one row per (user, concept). -/
structure MasteryState where
  userId : UserId
  conceptId : ConceptId
  aiRecommended : Bool
  masteryScore : ℚ
  confidenceScore : ℚ
  frustrationScore : ℚ
  attempts : Int
  lastSeen : Nat
  createdAt : Nat
deriving DecidableEq, Repr

/-- `mastery.models.QuizAttempt`: append-only graded-attempt row. -/
structure QuizAttempt where
  userId : UserId
  conceptId : ConceptId
  scorePercent : ℚ
  createdAt : Nat
deriving DecidableEq, Repr

/-- The database snapshot visible to the engine. -/
structure DB where
  concepts : List Concept
  masteryStates : List MasteryState
  quizAttempts : List QuizAttempt
deriving DecidableEq, Repr

/-- Insert an element into a sorted list, before the first element it
compares `le` to; together with `sortBy` this is the standard stable
insertion sort, used to model Python's stable `sorted`/Django `order_by`. -/
def orderedInsert {α : Type} (le : α → α → Bool) (a : α) : List α → List α
  | [] => [a]
  | b :: t => if le a b then a :: b :: t else b :: orderedInsert le a t

/-- Stable sort by a boolean (total preorder) comparison: equal-key
elements keep their stored order, matching Python's stable sort. -/
def sortBy {α : Type} (le : α → α → Bool) : List α → List α
  | [] => []
  | a :: t => orderedInsert le a (sortBy le t)

/-- Foreign-key dereference `concept_id -> Concept`. -/
def conceptById (db : DB) (cid : ConceptId) : Option Concept :=
  db.concepts.find? (fun c => c.id == cid)

/-- `MasteryState.objects.filter(user=u, concept=cid).first()` under the
`unique_together ('user', 'concept')` constraint. -/
def stateFor (db : DB) (u : UserId) (cid : ConceptId) : Option MasteryState :=
  (db.masteryStates.filter (fun s => s.userId == u && s.conceptId == cid)).head?

/-- All of one user's MasteryState rows, in stored order. -/
def userStates (db : DB) (u : UserId) : List MasteryState :=
  db.masteryStates.filter (fun s => s.userId == u)

/-- The `Concept.Meta.ordering = ['order_index', 'title']` comparison. -/
def concMetaLe (a b : Concept) : Bool :=
  a.orderIndex < b.orderIndex || (a.orderIndex == b.orderIndex && a.title ≤ b.title)

/-- `Concept.objects.filter(is_active=True)` optionally restricted to a
course, in the model's default ordering (`ConceptGraph._eligible_queryset`). -/
def activeConcepts (db : DB) (course : Option CourseId) : List Concept :=
  sortBy concMetaLe ((db.concepts.filter (fun c => c.isActive)).filter
    (fun c => match course with
      | none => true
      | some cid => c.courseId == cid))

/-- `ConceptGraph._prereqs_mastered`: vacuously true on an empty
prerequisite set; otherwise the number of prerequisite rows must equal the
number of distinct prerequisite ids holding a MasteryState for the user
with `mastery_score >= θ`. -/
def prereqsMastered (θ : ℚ) (db : DB) (u : UserId) (c : Concept) : Bool :=
  if c.prereqIds.isEmpty then true
  else
    let mastered :=
      ((db.masteryStates.filter (fun s =>
          s.userId == u && c.prereqIds.contains s.conceptId &&
            decide (θ ≤ s.masteryScore))).map (fun s => s.conceptId)).dedup
    c.prereqIds.length == mastered.length

/-- `ConceptGraph.eligible_concepts`. -/
def eligibleConcepts (θ : ℚ) (db : DB) (u : UserId) (course : Option CourseId) :
    List Concept :=
  (activeConcepts db course).filter (fun c => prereqsMastered θ db u c)

/-- Lexicographic boolean comparison on (mastery, last-seen) sort keys,
mirroring Python tuple comparison under `sorted(key=...)`. -/
def pairLe (ka kb : ℚ × Nat) : Bool :=
  decide (ka.1 < kb.1 ∨ (ka.1 = kb.1 ∧ ka.2 ≤ kb.2))

/-- Lexicographic boolean comparison on (confidence, mastery) sort keys. -/
def pairLeQ (ka kb : ℚ × ℚ) : Bool :=
  decide (ka.1 < kb.1 ∨ (ka.1 = kb.1 ∧ ka.2 ≤ kb.2))

/-- The `(mastery_score, last_seen)` sort key of
`ConceptGraph._select_lowest_mastery`; a missing row contributes
`(0.0, datetime.min)`. -/
def lowestMasteryKey (db : DB) (u : UserId) (c : Concept) : ℚ × Nat :=
  match stateFor db u c.id with
  | some s => (s.masteryScore, s.lastSeen)
  | none => (0, 0)

/-- `ConceptGraph._select_lowest_mastery`: stable sort of the candidates by
`(mastery_score, last_seen)` and take the first (`none` on an empty list,
which no caller passes). -/
def selectLowestMastery (db : DB) (u : UserId) (cs : List Concept) :
    Option Concept :=
  (sortBy (fun a b =>
    pairLe (lowestMasteryKey db u a) (lowestMasteryKey db u b)) cs).head?

/-- `MasteryState.objects.filter(user=user).order_by('-last_seen').first()`:
the user's most recently touched state. -/
def currentState (db : DB) (u : UserId) : Option MasteryState :=
  (sortBy (fun a b => decide (b.lastSeen ≤ a.lastSeen)) (userStates db u)).head?

/-- `ConceptGraph._fallback_prerequisite`: among active (course-scoped)
concepts, the concept of the user's lowest-mastery state, else the first
concept by `order_index`. -/
def fallbackPrerequisite (db : DB) (u : UserId) (course : Option CourseId) :
    Option Concept :=
  let cs := (db.concepts.filter (fun c => c.isActive)).filter
      (fun c => match course with
        | none => true
        | some cid => c.courseId == cid)
  if cs.isEmpty then none
  else
    let sts := sortBy (fun a b => decide (a.masteryScore ≤ b.masteryScore))
      (db.masteryStates.filter (fun s =>
        s.userId == u && cs.any (fun c => c.id == s.conceptId)))
    match sts.head? with
    | some st => conceptById db st.conceptId
    | none => (sortBy (fun a b => decide (a.orderIndex ≤ b.orderIndex)) cs).head?

/-- The user's MasteryState rows on prerequisites of the current concept,
as queried by `ConceptGraph._pivot_from_frustration` (before its
`order_by('mastery_score')`). -/
def prereqStatesOf (db : DB) (u : UserId) (curC : Concept) : List MasteryState :=
  db.masteryStates.filter (fun s =>
    s.userId == u && curC.prereqIds.contains s.conceptId)

/-- `ConceptGraph._pivot_from_frustration`: lowest-mastery prerequisite
state's concept if any prerequisite has a state; else the lowest-mastery
same-course sibling among `eligible`; else `_fallback_prerequisite`. -/
def pivotFromFrustration (db : DB) (u : UserId) (cur : MasteryState)
    (eligible : List Concept) (course : Option CourseId) : Option Concept :=
  match conceptById db cur.conceptId with
  | none => none
  | some curC =>
      let sorted := sortBy (fun a b => decide (a.masteryScore ≤ b.masteryScore))
        (prereqStatesOf db u curC)
      match sorted.head? with
      | some pst => conceptById db pst.conceptId
      | none =>
          let siblings := eligible.filter (fun c =>
            c.courseId == curC.courseId && c.id != cur.conceptId)
          if siblings.isEmpty then fallbackPrerequisite db u course
          else selectLowestMastery db u siblings

/-- `ConceptGraph._pivot_sideways`: lowest-mastery eligible concept other
than the current one, if any. -/
def pivotSideways (db : DB) (u : UserId) (cur : MasteryState)
    (eligible : List Concept) : Option Concept :=
  let alts := eligible.filter (fun c => c.id != cur.conceptId)
  if alts.isEmpty then none else selectLowestMastery db u alts

/-- `ConceptGraph.select_next_concept`: frustration pivot, then stagnation
pivot, then lowest-mastery among eligible, then the absolute fallback. -/
def graphSelectNext (θ : ℚ) (db : DB) (u : UserId) (course : Option CourseId) :
    Option Concept :=
  let eligible := eligibleConcepts θ db u course
  let cur? := currentState db u
  let pivot1 : Option Concept :=
    match cur? with
    | some cur =>
        if 7/10 < cur.frustrationScore then
          pivotFromFrustration db u cur eligible course
        else none
    | none => none
  match pivot1 with
  | some p => some p
  | none =>
      let pivot2 : Option Concept :=
        match cur? with
        | some cur =>
            if cur.masteryScore < 4/10 ∧ 3 < cur.attempts then
              pivotSideways db u cur eligible
            else none
        | none => none
      match pivot2 with
      | some p => some p
      | none =>
          if eligible.isEmpty then fallbackPrerequisite db u course
          else selectLowestMastery db u eligible

/-- The candidate list built at the top of `MasteryEngine.select_next_concept`:
the eligible concepts, or all active concepts when none are eligible, then
restricted to the course when one is given. -/
def conceptsList (θ : ℚ) (db : DB) (u : UserId) (course : Option CourseId) :
    List Concept :=
  let eligible := eligibleConcepts θ db u course
  let base := if eligible.isEmpty then
      sortBy concMetaLe (db.concepts.filter (fun c => c.isActive))
    else eligible
  match course with
  | none => base
  | some cid => base.filter (fun c => c.courseId == cid)

/-- `state.save(update_fields=['ai_recommended'])` after setting the flag on
the (user, concept) row. -/
def setAiRecommended (db : DB) (u : UserId) (cid : ConceptId) : DB :=
  { db with masteryStates := db.masteryStates.map (fun s =>
      if s.userId == u && s.conceptId == cid then
        { s with aiRecommended := true }
      else s) }

/-- `MasteryEngine.select_next_concept`, with the adapter's reply passed in
as the list of suggested concept ids. Returns the chosen concept and the
database after the possible `ai_recommended` flag write. -/
def engineSelectNext (θ : ℚ) (db : DB) (u : UserId) (course : Option CourseId)
    (aiSuggestions : List ConceptId) : Option Concept × DB :=
  let concepts := conceptsList θ db u course
  let aiCandidates := concepts.filter (fun c => aiSuggestions.contains c.id)
  match aiCandidates.head? with
  | some c =>
      let db' := match stateFor db u c.id with
        | some _ => setAiRecommended db u c.id
        | none => db
      (some c, db')
  | none => (graphSelectNext θ db u course, db)

/-- The deterministic local path of `AIProvider.recommend_concepts` taken
when Azure is not configured: score each candidate by the user's
(confidence, mastery) pair, stable-sort ascending, and return the first
three (truthy) ids. -/
def recommendConceptsFallback (db : DB) (u : UserId) (concepts : List Concept) :
    List ConceptId :=
  let score := fun (c : Concept) =>
    match stateFor db u c.id with
    | some s => (s.confidenceScore, s.masteryScore)
    | none => ((0 : ℚ), (0 : ℚ))
  (((sortBy (fun a b => pairLeQ (score a) (score b)) concepts).take 3).map
      (fun c => c.id)).filter (fun i => i ≠ 0)

/-- `MasteryEngine.select_next_concept` when the adapter is not configured:
the suggestions come from the deterministic local path of
`recommend_concepts`. -/
def engineSelectNextNoAzure (θ : ℚ) (db : DB) (u : UserId)
    (course : Option CourseId) : Option Concept × DB :=
  engineSelectNext θ db u course
    (recommendConceptsFallback db u (conceptsList θ db u course))

/-- Clamp a score percentage into [0, 100] (`max(0.0, min(100.0, s))`). -/
def clampScore100 (s : ℚ) : ℚ := max 0 (min 100 s)

/-- Clamp a signal into [0, 1] (`min(1.0, max(0.0, x))`). -/
def clamp01 (x : ℚ) : ℚ := min 1 (max 0 x)

/-- The body of `MasteryEngine.update_mastery_after_quiz` acting on one
MasteryState row: bump attempts and `last_seen`, add the band deltas for
the (already clamped) score, then clamp all three signals into [0, 1]. -/
def applyQuizToState (st : MasteryState) (s : ℚ) (now : Nat) : MasteryState :=
  let st1 := { st with attempts := st.attempts + 1, lastSeen := now }
  let st2 :=
    if 80 ≤ s then
      { st1 with masteryScore := st1.masteryScore + 15/100
                 frustrationScore := st1.frustrationScore - 2/10
                 confidenceScore := st1.confidenceScore + 1/10 }
    else if 50 ≤ s then
      { st1 with masteryScore := st1.masteryScore + 5/100
                 frustrationScore := st1.frustrationScore + 5/100
                 confidenceScore := st1.confidenceScore + 2/100 }
    else
      { st1 with masteryScore := st1.masteryScore + 1/100
                 frustrationScore := st1.frustrationScore + 2/10
                 confidenceScore := st1.confidenceScore - 5/100 }
  { st2 with masteryScore := clamp01 st2.masteryScore
             frustrationScore := clamp01 st2.frustrationScore
             confidenceScore := clamp01 st2.confidenceScore }

/-- The defaults used by `MasteryEngine._get_mastery_state` when the row
does not exist yet (`last_seen` is `auto_now`, `created_at` `auto_now_add`). -/
def defaultState (u : UserId) (cid : ConceptId) (now : Nat) : MasteryState :=
  { userId := u, conceptId := cid, aiRecommended := false,
    masteryScore := 0, confidenceScore := 0, frustrationScore := 0,
    attempts := 0, lastSeen := now, createdAt := now }

/-- `MasteryState.objects.get_or_create(user=u, concept=cid, defaults=...)`:
returns the row (fetched or freshly inserted) and the possibly-extended
database. -/
def getOrCreateState (db : DB) (u : UserId) (cid : ConceptId) (now : Nat) :
    MasteryState × DB :=
  match stateFor db u cid with
  | some s => (s, db)
  | none =>
      let s := defaultState u cid now
      (s, { db with masteryStates := db.masteryStates ++ [s] })

/-- The QuizAttempt row inserted by `update_mastery_after_quiz`. -/
def mkQuizAttempt (u : UserId) (cid : ConceptId) (s : ℚ) (now : Nat) : QuizAttempt :=
  { userId := u, conceptId := cid, scorePercent := s, createdAt := now }

/-- The sequence of database writes performed inside the
`transaction.atomic()` block of `update_mastery_after_quiz`:
get-or-create of the MasteryState row, insertion of the QuizAttempt row,
and the save of the mutated MasteryState fields. -/
def updateQuizSteps (u : UserId) (concept : Concept) (score : ℚ) (now : Nat) :
    List (DB → DB) :=
  [ fun db => (getOrCreateState db u concept.id now).2,
    fun db => { db with quizAttempts :=
        db.quizAttempts ++ [mkQuizAttempt u concept.id (clampScore100 score) now] },
    fun db => { db with masteryStates :=
        db.masteryStates.map (fun s =>
          if s.userId == u && s.conceptId == concept.id then
            applyQuizToState s (clampScore100 score) now
          else s) } ]

/-- `django.db.transaction.atomic`: if the body raises partway through
(`failed = true`), every write inside the block is rolled back and the
database is unchanged; otherwise the whole body commits. -/
def transactionAtomic (steps : List (DB → DB)) (db : DB) (failed : Bool) : DB :=
  if failed then db else steps.foldl (fun d f => f d) db

/-- `MasteryEngine.update_mastery_after_quiz`, database effect on the
successful path. -/
def updateMasteryAfterQuiz (db : DB) (u : UserId) (concept : Concept)
    (score : ℚ) (now : Nat) : DB :=
  (updateQuizSteps u concept score now).foldl (fun d f => f d) db

/-- The MasteryState returned in `MasteryUpdateResult` by
`update_mastery_after_quiz`. -/
def updateResultState (db : DB) (u : UserId) (concept : Concept)
    (score : ℚ) (now : Nat) : MasteryState :=
  applyQuizToState (getOrCreateState db u concept.id now).1 (clampScore100 score) now

/-- Uniqueness invariant from `MasteryState.Meta.unique_together`:
no two rows share a (user, concept) key. -/
def keysNodup (db : DB) : Prop :=
  (db.masteryStates.map (fun s => (s.userId, s.conceptId))).Nodup

instance (db : DB) : Decidable (keysNodup db) := by
  unfold keysNodup; infer_instance

/-- The adapter reply consumed by `recommend_next_concept_after_quiz`
(`{next_concept_id, reason, repeat}`); `nextConceptId = none` models a
missing or blank id. -/
structure AiNextRec where
  nextConceptId : Option ConceptId
deriving DecidableEq, Repr

/-- `Concept.objects.filter(course=course, is_active=True)
.order_by('order_index', 'id')` for the graded concept's course. -/
def courseConceptsOf (db : DB) (courseId : CourseId) : List Concept :=
  sortBy (fun a b => a.orderIndex < b.orderIndex ||
      (a.orderIndex == b.orderIndex && a.id ≤ b.id))
    (db.concepts.filter (fun c => c.courseId == courseId && c.isActive))

/-- The course-scoped mastery map of `recommend_next_concept_after_quiz`
(`MasteryState.objects.filter(user=..., concept__course=course)`): a
prerequisite outside the course reads as mastery 0.0 even when a state
row exists for it. -/
def courseMasteryFor (db : DB) (u : UserId) (courseId : CourseId)
    (c : Concept) : ℚ :=
  match (db.masteryStates.filter (fun s =>
      s.userId == u && s.conceptId == c.id &&
        (match conceptById db s.conceptId with
         | some oc => oc.courseId == courseId
         | none => false))).head? with
  | some s => s.masteryScore
  | none => 0

/-- `MasteryEngine._fallback_next_concept_after_quiz`. -/
def fallbackNextAfterQuiz (db : DB) (u : UserId) (concept : Concept)
    (score : ℚ) (courseConcepts : List Concept) : Option Concept :=
  if 80 ≤ score then
    courseConcepts.find? (fun c => concept.orderIndex < c.orderIndex)
  else
    let st? := stateFor db u concept.id
    let doPivot : Bool := match st? with
      | some st => decide (7/10 < st.frustrationScore ∨ score < 50)
      | none => false
    let prereqs := sortBy concMetaLe (db.concepts.filter (fun c =>
        concept.prereqIds.contains c.id))
    let prereqPick : Option Concept :=
      if doPivot then
        if prereqs.isEmpty then none
        else (sortBy (fun a b =>
          decide (courseMasteryFor db u concept.courseId a ≤
                  courseMasteryFor db u concept.courseId b)) prereqs).head?
      else none
    match prereqPick with
    | some p => some p
    | none =>
        let alternatives := courseConcepts.filter (fun c => c.id != concept.id)
        if alternatives.isEmpty then none
        else (sortBy (fun a b =>
          decide (courseMasteryFor db u concept.courseId a ≤
                  courseMasteryFor db u concept.courseId b)) alternatives).head?

/-- `MasteryEngine.recommend_next_concept_after_quiz`, with the adapter's
reply passed in explicitly. -/
def recommendNextAfterQuiz (db : DB) (u : UserId) (concept : Concept)
    (score : ℚ) (rec : Option AiNextRec) : Option Concept :=
  let courseConcepts := courseConceptsOf db concept.courseId
  if courseConcepts.isEmpty then none
  else
    let next? : Option Concept :=
      match rec with
      | none => none
      | some r =>
          match r.nextConceptId with
          | none => none
          | some nid =>
              match courseConcepts.find? (fun c => c.id == nid) with
              | none => none
              | some nc =>
                  if nc.id == concept.id && decide (80 ≤ score) then none
                  else some nc
    match next? with
    | some nc => some nc
    | none => fallbackNextAfterQuiz db u concept score courseConcepts

/-- `recommend_next_concept_after_quiz` when the adapter is not configured:
`AIProvider.recommend_next_lesson` returns no recommendation. -/
def recommendNextAfterQuizNoAzure (db : DB) (u : UserId) (concept : Concept)
    (score : ℚ) : Option Concept :=
  recommendNextAfterQuiz db u concept score none

/-! ### Concrete snapshots used by counterexamples and witnesses -/

/-- Concept row builder for concrete snapshots. -/
def mkC (i : ConceptId) (crs : CourseId) (t : String) (oi : Int)
    (pr : List ConceptId) : Concept :=
  { id := i, courseId := crs, title := t, difficulty := 1, orderIndex := oi,
    prereqIds := pr, isActive := true }

/-- MasteryState row builder for concrete snapshots. -/
def mkS (u : UserId) (cid : ConceptId) (m conf fr : ℚ) (att : Int)
    (ls : Nat) : MasteryState :=
  { userId := u, conceptId := cid, aiRecommended := false, masteryScore := m,
    confidenceScore := conf, frustrationScore := fr, attempts := att,
    lastSeen := ls, createdAt := 1 }

/-- Snapshot for C3: two active course-1 concepts with no prerequisites,
and a MasteryState for the second one. -/
def db3 : DB :=
  { concepts := [mkC 1 1 "a" 0 [], mkC 2 1 "b" 1 []],
    masteryStates := [mkS 7 2 0 0 0 0 5],
    quizAttempts := [] }

/-- Snapshot for C4: course 1 holds one eligible concept; the user's most
recent (frustrated) state is on a course-2 concept whose prerequisite also
lives in course 2. -/
def db4 : DB :=
  { concepts := [mkC 12 1 "q" 0 [], mkC 10 2 "c" 0 [11], mkC 11 2 "p" 1 []],
    masteryStates := [mkS 7 10 (1/2) 0 (8/10) 1 100, mkS 7 11 (3/10) 0 0 1 50],
    quizAttempts := [] }

/-- Snapshot for C5's counterexample: the current concept (frustration 0.75)
has a single prerequisite mastered at 0.95, and a same-course sibling sits
at mastery 0.5. -/
def db5 : DB :=
  { concepts := [mkC 1 1 "c" 0 [2], mkC 2 1 "p" 1 [], mkC 3 1 "s" 2 []],
    masteryStates := [mkS 7 1 (1/2) 0 (3/4) 1 100, mkS 7 2 (95/100) 0 0 1 10,
      mkS 7 3 (1/2) 0 0 1 20],
    quizAttempts := [] }

/-- Snapshot for C5's witness: same shape, prerequisite at mastery 0.2 and
sibling at 0.5, current frustration 0.75. -/
def db5w : DB :=
  { concepts := [mkC 1 1 "c" 0 [2], mkC 2 1 "p" 1 [], mkC 3 1 "s" 2 []],
    masteryStates := [mkS 7 1 (1/2) 0 (3/4) 1 100, mkS 7 2 (2/10) 0 0 1 10,
      mkS 7 3 (1/2) 0 0 1 20],
    quizAttempts := [] }

/-- Snapshot for C6: three active course-1 concepts in index order, no
states. -/
def db6 : DB :=
  { concepts := [mkC 1 1 "a" 0 [], mkC 2 1 "b" 1 [], mkC 3 1 "c" 2 []],
    masteryStates := [],
    quizAttempts := [] }

/-- Snapshot for C8: a user with no MasteryState rows; the lowest-index
course concept has a prerequisite, the next one has none. -/
def db8 : DB :=
  { concepts := [mkC 1 1 "a" 0 [2], mkC 2 1 "b" 1 []],
    masteryStates := [],
    quizAttempts := [] }

/-! ### General-purpose lemmas -/

-- clamp01 always lands in [0, 1]
theorem clamp01_nonneg (x : ℚ) : 0 ≤ clamp01 x :=
  le_min (by norm_num) (le_max_left 0 x)

theorem clamp01_le_one (x : ℚ) : clamp01 x ≤ 1 :=
  min_le_left 1 _

-- a pairwise relation that holds for all pairs holds along any list
theorem pairwise_of_all {α : Type} {R : α → α → Prop} (h : ∀ a b, R a b) :
    ∀ l : List α, l.Pairwise R
  | [] => .nil
  | a :: t => .cons (fun b _ => h a b) (pairwise_of_all h t)

-- `contains` agrees with membership for lawful BEq
theorem contains_iff_mem {α : Type} [BEq α] [LawfulBEq α] (l : List α) (a : α) :
    l.contains a = true ↔ a ∈ l := by
  simp [List.contains, List.elem_iff]

-- membership is invariant under orderedInsert / sortBy
theorem mem_orderedInsert {α : Type} (le : α → α → Bool) (a x : α)
    (l : List α) : x ∈ orderedInsert le a l ↔ x = a ∨ x ∈ l := by
  induction l with
  | nil => simp [orderedInsert]
  | cons b t ih =>
      unfold orderedInsert
      split_ifs
      · simp [List.mem_cons]
      · rw [List.mem_cons, ih, List.mem_cons]
        tauto

theorem mem_sortBy {α : Type} (le : α → α → Bool) (x : α) (l : List α) :
    x ∈ sortBy le l ↔ x ∈ l := by
  induction l with
  | nil => simp [sortBy]
  | cons a t ih =>
      rw [sortBy, mem_orderedInsert, ih, List.mem_cons]

-- sortBy sorts, for a transitive total boolean comparison
theorem pairwise_orderedInsert {α : Type} (le : α → α → Bool)
    (htrans : ∀ a b c, le a b = true → le b c = true → le a c = true)
    (htotal : ∀ a b, (le a b || le b a) = true)
    (a : α) (l : List α) (h : l.Pairwise (fun x y => le x y = true)) :
    (orderedInsert le a l).Pairwise (fun x y => le x y = true) := by
  induction l with
  | nil => simp [orderedInsert]
  | cons b t ih =>
      rcases List.pairwise_cons.mp h with ⟨hb, ht⟩
      unfold orderedInsert
      split_ifs with hab
      · refine List.Pairwise.cons ?_ h
        intro y hy
        rcases List.mem_cons.mp hy with rfl | hyt
        · exact hab
        · exact htrans a b y hab (hb y hyt)
      · have hba : le b a = true := by
          have := htotal a b
          simpa [hab] using this
        refine List.Pairwise.cons ?_ (ih ht)
        intro y hy
        rcases (mem_orderedInsert le a y t).mp hy with rfl | hyt
        · exact hba
        · exact hb y hyt

theorem pairwise_sortBy {α : Type} (le : α → α → Bool)
    (htrans : ∀ a b c, le a b = true → le b c = true → le a c = true)
    (htotal : ∀ a b, (le a b || le b a) = true)
    (l : List α) : (sortBy le l).Pairwise (fun x y => le x y = true) := by
  induction l with
  | nil => exact .nil
  | cons a t ih => exact pairwise_orderedInsert le htrans htotal a _ ih

-- an already-sorted list is left unchanged (hence lists with all-equal
-- keys keep their stored order)
theorem sortBy_of_pairwise {α : Type} (le : α → α → Bool) :
    ∀ l : List α, l.Pairwise (fun x y => le x y = true) → sortBy le l = l
  | [], _ => rfl
  | a :: t, h => by
      rcases List.pairwise_cons.mp h with ⟨ha, ht⟩
      rw [sortBy, sortBy_of_pairwise le t ht]
      cases t with
      | nil => rfl
      | cons b t2 =>
          unfold orderedInsert
          rw [if_pos (ha b (List.mem_cons_self b t2))]

-- the head of sortBy is a member of the list that the comparison places
-- below every member
theorem head_sortBy_min {α : Type} (le : α → α → Bool)
    (htrans : ∀ a b c, le a b = true → le b c = true → le a c = true)
    (htotal : ∀ a b, (le a b || le b a) = true)
    (l : List α) (x : α)
    (h : (sortBy le l).head? = some x) :
    x ∈ l ∧ ∀ y ∈ l, le x y = true := by
  have hs := pairwise_sortBy le htrans htotal l
  cases hm : sortBy le l with
  | nil => rw [hm] at h; cases h
  | cons a t =>
      rw [hm] at h hs
      have hax : a = x := by simpa using h
      subst hax
      constructor
      · exact (mem_sortBy le a l).mp (by rw [hm]; exact List.mem_cons_self a t)
      · intro y hy
        have hy' : y ∈ sortBy le l := (mem_sortBy le y l).mpr hy
        rw [hm] at hy'
        rcases List.mem_cons.mp hy' with hya | hyt
        · subst hya
          have := htotal y y
          simpa using this
        · exact (List.pairwise_cons.mp hs).1 y hyt

/-! ### C1 — update rule -/

/-- C1: `update_mastery_after_quiz` clamps `score_percent` into [0, 100],
applies exactly the band deltas (≥80: mastery +0.15, frustration −0.20,
confidence +0.10; 50–80: +0.05, +0.05, +0.02; <50: +0.01, +0.20, −0.05),
increments `attempts` by exactly 1, and leaves the three signals clamped
into [0, 1]. -/
theorem update_after_quiz_band_rule (db : DB) (u : UserId) (concept : Concept)
    (score : ℚ) (now : Nat) :
    let st0 := (getOrCreateState db u concept.id now).1
    let s := clampScore100 score
    let st1 := updateResultState db u concept score now
    0 ≤ s ∧ s ≤ 100 ∧
    st1.attempts = st0.attempts + 1 ∧
    (80 ≤ s →
      st1.masteryScore = clamp01 (st0.masteryScore + 15/100) ∧
      st1.frustrationScore = clamp01 (st0.frustrationScore - 2/10) ∧
      st1.confidenceScore = clamp01 (st0.confidenceScore + 1/10)) ∧
    (50 ≤ s ∧ s < 80 →
      st1.masteryScore = clamp01 (st0.masteryScore + 5/100) ∧
      st1.frustrationScore = clamp01 (st0.frustrationScore + 5/100) ∧
      st1.confidenceScore = clamp01 (st0.confidenceScore + 2/100)) ∧
    (s < 50 →
      st1.masteryScore = clamp01 (st0.masteryScore + 1/100) ∧
      st1.frustrationScore = clamp01 (st0.frustrationScore + 2/10) ∧
      st1.confidenceScore = clamp01 (st0.confidenceScore - 5/100)) ∧
    0 ≤ st1.masteryScore ∧ st1.masteryScore ≤ 1 ∧
    0 ≤ st1.confidenceScore ∧ st1.confidenceScore ≤ 1 ∧
    0 ≤ st1.frustrationScore ∧ st1.frustrationScore ≤ 1 := by
  intro st0 s st1
  have hst1 : st1 = applyQuizToState st0 s now := rfl
  have h0 : 0 ≤ s := le_max_left 0 _
  have h100 : s ≤ 100 := max_le (by norm_num) (min_le_left 100 score)
  refine ⟨h0, h100, ?_, ?_, ?_, ?_, ?_, ?_, ?_, ?_, ?_, ?_⟩
  · rw [hst1]; unfold applyQuizToState; split_ifs <;> rfl
  · intro h
    rw [hst1]; unfold applyQuizToState
    split_ifs
    exact ⟨rfl, rfl, rfl⟩
  · rintro ⟨hmid1, hmid2⟩
    rw [hst1]; unfold applyQuizToState
    split_ifs with h1
    · exact absurd h1 (not_le.mpr hmid2)
    · exact ⟨rfl, rfl, rfl⟩
  · intro h
    rw [hst1]; unfold applyQuizToState
    split_ifs with h1 h2
    · exact absurd h1 (by linarith)
    · exact absurd h2 (by linarith)
    · exact ⟨rfl, rfl, rfl⟩
  · rw [hst1]; unfold applyQuizToState; split_ifs <;> exact clamp01_nonneg _
  · rw [hst1]; unfold applyQuizToState; split_ifs <;> exact clamp01_le_one _
  · rw [hst1]; unfold applyQuizToState; split_ifs <;> exact clamp01_nonneg _
  · rw [hst1]; unfold applyQuizToState; split_ifs <;> exact clamp01_le_one _
  · rw [hst1]; unfold applyQuizToState; split_ifs <;> exact clamp01_nonneg _
  · rw [hst1]; unfold applyQuizToState; split_ifs <;> exact clamp01_le_one _

/-- C1 witness: the band rule evaluated on a concrete snapshot and score. -/
theorem update_after_quiz_band_rule_witness :
    (updateResultState { concepts := [], masteryStates := [], quizAttempts := [] }
        7 (mkC 1 1 "a" 0 []) 95 42).attempts = 0 + 1 ∧
    (80 : ℚ) ≤ clampScore100 95 := by
  have h := update_after_quiz_band_rule
    { concepts := [], masteryStates := [], quizAttempts := [] }
    7 (mkC 1 1 "a" 0 []) 95 42
  refine ⟨?_, by norm_num [clampScore100]⟩
  have := h.2.2.1
  simpa using this

/-! ### C2 — eligibility -/

-- the `values_list`/`set` computation of `_prereqs_mastered` contains a
-- prerequisite id exactly when a qualifying MasteryState row exists
theorem mem_mastered_iff (θ : ℚ) (db : DB) (u : UserId) (c : Concept)
    (p : ConceptId) :
    p ∈ ((db.masteryStates.filter (fun s =>
        s.userId == u && c.prereqIds.contains s.conceptId &&
          decide (θ ≤ s.masteryScore))).map (fun s => s.conceptId)).dedup ↔
    p ∈ c.prereqIds ∧ ∃ s ∈ db.masteryStates,
      s.userId = u ∧ s.conceptId = p ∧ θ ≤ s.masteryScore := by
  rw [List.mem_dedup, List.mem_map]
  constructor
  · rintro ⟨s, hs, rfl⟩
    rw [List.mem_filter] at hs
    obtain ⟨hmem, hpred⟩ := hs
    simp only [Bool.and_eq_true, beq_iff_eq, decide_eq_true_eq,
      contains_iff_mem] at hpred
    exact ⟨hpred.1.2, s, hmem, hpred.1.1, rfl, hpred.2⟩
  · rintro ⟨hp, s, hmem, hu, hcid, hθ⟩
    refine ⟨s, ?_, hcid⟩
    rw [List.mem_filter]
    refine ⟨hmem, ?_⟩
    simp only [Bool.and_eq_true, beq_iff_eq, decide_eq_true_eq,
      contains_iff_mem]
    exact ⟨⟨hu, hcid ▸ hp⟩, hθ⟩

-- counting argument: for nodup lists with M ⊆ P, the lengths agree exactly
-- when every member of P is in M
theorem length_eq_iff_all_mem (P M : List ConceptId)
    (hP : P.Nodup) (hM : M.Nodup) (hsub : M ⊆ P) :
    P.length = M.length ↔ ∀ p ∈ P, p ∈ M := by
  have hsubF : M.toFinset ⊆ P.toFinset := by
    intro x hx
    exact List.mem_toFinset.mpr (hsub (List.mem_toFinset.mp hx))
  constructor
  · intro hlen p hp
    have hcard : P.toFinset.card ≤ M.toFinset.card := by
      rw [List.toFinset_card_of_nodup hP, List.toFinset_card_of_nodup hM, hlen]
    have : M.toFinset = P.toFinset := Finset.eq_of_subset_of_card_le hsubF hcard
    rw [← List.mem_toFinset, ← this, List.mem_toFinset] at hp
    exact hp
  · intro hall
    have : P.toFinset = M.toFinset := by
      apply Finset.Subset.antisymm
      · intro x hx
        exact List.mem_toFinset.mpr (hall x (List.mem_toFinset.mp hx))
      · exact hsubF
    rw [← List.toFinset_card_of_nodup hP, ← List.toFinset_card_of_nodup hM, this]

-- the boolean `_prereqs_mastered` agrees with the spec-level condition
theorem prereqsMastered_iff (θ : ℚ) (db : DB) (u : UserId) (c : Concept)
    (hnd : c.prereqIds.Nodup) :
    prereqsMastered θ db u c = true ↔
      (c.prereqIds = [] ∨ ∀ p ∈ c.prereqIds, ∃ s ∈ db.masteryStates,
        s.userId = u ∧ s.conceptId = p ∧ θ ≤ s.masteryScore) := by
  unfold prereqsMastered
  by_cases hemp : c.prereqIds.isEmpty
  · rw [if_pos hemp]
    simp [List.isEmpty_iff.mp hemp]
  · rw [if_neg hemp]
    have hne : c.prereqIds ≠ [] := fun h => hemp (by simp [h])
    set M := ((db.masteryStates.filter (fun s =>
        s.userId == u && c.prereqIds.contains s.conceptId &&
          decide (θ ≤ s.masteryScore))).map (fun s => s.conceptId)).dedup with hMdef
    have hMnd : M.Nodup := List.nodup_dedup _
    have hMsub : M ⊆ c.prereqIds := by
      intro x hx
      exact ((mem_mastered_iff θ db u c x).mp hx).1
    rw [beq_iff_eq, length_eq_iff_all_mem c.prereqIds M hnd hMnd hMsub]
    constructor
    · intro hall
      right
      intro p hp
      exact ((mem_mastered_iff θ db u c p).mp (hall p hp)).2
    · rintro (h | hall)
      · exact absurd h hne
      · intro p hp
        exact (mem_mastered_iff θ db u c p).mpr ⟨hp, hall p hp⟩

/-- C2: `eligible_concepts(user, course)` returns exactly the active
(course-scoped) concepts whose prerequisite set is empty or all of whose
prerequisites have a MasteryState for the user with
`mastery_score >= 0.6` (the default `mastery_threshold`). -/
theorem eligible_concepts_exact (db : DB) (u : UserId) (course : Option CourseId)
    (c : Concept) (hnd : c.prereqIds.Nodup) :
    c ∈ eligibleConcepts (6/10) db u course ↔
      c ∈ activeConcepts db course ∧
      (c.prereqIds = [] ∨ ∀ p ∈ c.prereqIds, ∃ s ∈ db.masteryStates,
        s.userId = u ∧ s.conceptId = p ∧ (6/10 : ℚ) ≤ s.masteryScore) := by
  unfold eligibleConcepts
  rw [List.mem_filter]
  exact and_congr_right (fun _ => prereqsMastered_iff (6/10) db u c hnd)

/-- C2 witness: the characterization evaluated on a concrete snapshot where
one concept has its only prerequisite mastered at 0.7. -/
theorem eligible_concepts_exact_witness :
    mkC 1 1 "a" 0 [2] ∈ eligibleConcepts (6/10)
      { concepts := [mkC 1 1 "a" 0 [2], mkC 2 1 "b" 1 []],
        masteryStates := [mkS 7 2 (7/10) 0 0 1 5], quizAttempts := [] }
      7 (some 1) := by
  have h := eligible_concepts_exact
    { concepts := [mkC 1 1 "a" 0 [2], mkC 2 1 "b" 1 []],
      masteryStates := [mkS 7 2 (7/10) 0 0 1 5], quizAttempts := [] }
    7 (some 1) (mkC 1 1 "a" 0 [2]) (by decide)
  apply h.mpr
  refine ⟨by with_unfolding_all decide, Or.inr ?_⟩
  intro p hp
  refine ⟨mkS 7 2 (7/10) 0 0 1 5, by with_unfolding_all decide,
    by with_unfolding_all decide, ?_, by norm_num [mkS]⟩
  have : p = 2 := by simpa [mkC] using hp
  simp [this, mkS]

/-! ### Order lemmas for the sort comparisons -/

theorem pairLe_trans (a b c : ℚ × Nat) :
    pairLe a b = true → pairLe b c = true → pairLe a c = true := by
  simp only [pairLe, decide_eq_true_eq]
  rintro (h1 | ⟨e1, l1⟩) (h2 | ⟨e2, l2⟩)
  · left; exact lt_trans h1 h2
  · left; rwa [← e2]
  · left; rwa [e1]
  · right; exact ⟨e1.trans e2, le_trans l1 l2⟩

theorem pairLe_total (a b : ℚ × Nat) : (pairLe a b || pairLe b a) = true := by
  simp only [pairLe, Bool.or_eq_true, decide_eq_true_eq]
  rcases lt_trichotomy a.1 b.1 with h | h | h
  · exact Or.inl (Or.inl h)
  · rcases le_total a.2 b.2 with h2 | h2
    · exact Or.inl (Or.inr ⟨h, h2⟩)
    · exact Or.inr (Or.inr ⟨h.symm, h2⟩)
  · exact Or.inr (Or.inl h)

theorem masteryLe_trans (a b c : MasteryState) :
    decide (a.masteryScore ≤ b.masteryScore) = true →
    decide (b.masteryScore ≤ c.masteryScore) = true →
    decide (a.masteryScore ≤ c.masteryScore) = true := by
  simp only [decide_eq_true_eq]
  exact le_trans

theorem masteryLe_total (a b : MasteryState) :
    (decide (a.masteryScore ≤ b.masteryScore) ||
      decide (b.masteryScore ≤ a.masteryScore)) = true := by
  simp only [Bool.or_eq_true, decide_eq_true_eq]
  exact le_total _ _

/-! ### C3 — adapter-intersection selection order -/

/-- C3 counterexample: with eligible concepts [id 1, id 2] and adapter
suggestions [2, 1], the first intersecting id in adapter order is 2, but
`select_next_concept` returns the concept with id 1 — the code walks its
own candidate list, not the adapter's ranking. -/
theorem select_next_ai_order_counterexample :
    (engineSelectNext (6/10) db3 7 (some 1) [2, 1]).1 = some (mkC 1 1 "a" 0 []) ∧
    (mkC 2 1 "b" 1 []) ∈ eligibleConcepts (6/10) db3 7 (some 1) ∧
    [2, 1].find? (fun i =>
      (eligibleConcepts (6/10) db3 7 (some 1)).any (fun c => c.id == i)) = some 2 ∧
    (mkC 1 1 "a" 0 []).id ≠ 2 := by
  with_unfolding_all decide

/-- C3 (amended): when the adapter's suggestions intersect the engine's
candidate list, the concept returned is the first candidate **in the
engine's candidate-list order** whose id is suggested, and any MasteryState
row of the user for that concept has `ai_recommended` set to true. -/
theorem select_next_ai_first_candidate (θ : ℚ) (db : DB) (u : UserId)
    (course : Option CourseId) (suggestions : List ConceptId) (c : Concept)
    (h : ((conceptsList θ db u course).filter
        (fun x => suggestions.contains x.id)).head? = some c) :
    (engineSelectNext θ db u course suggestions).1 = some c ∧
    ∀ s ∈ (engineSelectNext θ db u course suggestions).2.masteryStates,
      s.userId = u → s.conceptId = c.id → s.aiRecommended = true := by
  simp only [engineSelectNext]
  rw [h]
  refine ⟨rfl, ?_⟩
  dsimp only
  cases hsf : stateFor db u c.id with
  | none =>
      dsimp only
      intro s hs hu hc
      have hnil : db.masteryStates.filter
          (fun s => s.userId == u && s.conceptId == c.id) = [] := by
        have := hsf
        unfold stateFor at this
        exact List.head?_eq_none_iff.mp this
      have : s ∈ db.masteryStates.filter
          (fun s => s.userId == u && s.conceptId == c.id) := by
        rw [List.mem_filter]
        exact ⟨hs, by simp [hu, hc]⟩
      rw [hnil] at this
      cases this
  | some s0 =>
      dsimp only
      intro s hs hu hc
      unfold setAiRecommended at hs
      simp only at hs
      rcases List.mem_map.mp hs with ⟨a, _, hfa⟩
      by_cases hk : (a.userId == u && a.conceptId == c.id) = true
      · rw [if_pos hk] at hfa
        rw [← hfa]
      · rw [if_neg hk] at hfa
        subst hfa
        exact absurd (by simp [hu, hc]) hk

/-- C3 witness: the amended rule evaluated on the C3 snapshot with a single
suggestion, exercising the `ai_recommended` flag write. -/
theorem select_next_ai_first_candidate_witness :
    (engineSelectNext (6/10) db3 7 (some 1) [2]).1 = some (mkC 2 1 "b" 1 []) ∧
    ∀ s ∈ (engineSelectNext (6/10) db3 7 (some 1) [2]).2.masteryStates,
      s.userId = 7 → s.conceptId = (mkC 2 1 "b" 1 []).id → s.aiRecommended = true :=
  select_next_ai_first_candidate (6/10) db3 7 (some 1) [2] (mkC 2 1 "b" 1 [])
    (by with_unfolding_all decide)

/-! ### C4 — course containment of select_next_concept -/

/-- C4: evaluation of the course-escape bug. With course 1 requested and no
usable adapter suggestion, the frustration pivot walks the prerequisites of
the user's most recent (course-2) concept and returns a course-2 concept:
`select_next_concept(user, course=1)` yields the concept with id 11 in
course 2. -/
theorem select_next_course_escape :
    (engineSelectNext (6/10) db4 7 (some 1) []).1 = some (mkC 11 2 "p" 1 []) ∧
    (mkC 11 2 "p" 1 []).courseId = 2 := by
  with_unfolding_all decide

/-! ### C5 — frustration pivot preference -/

/-- C5 counterexample: the current concept's only prerequisite is mastered
at 0.95 (no unmastered prerequisite exists), an eligible same-course
sibling sits at mastery 0.5, yet the selector returns the mastered
prerequisite (id 2), not the sibling (id 3): the code never filters
prerequisites by mastery. -/
theorem frustration_pivot_unmastered_counterexample :
    graphSelectNext (6/10) db5 7 (some 1) = some (mkC 2 1 "p" 1 []) ∧
    (mkS 7 2 (95/100) 0 0 1 10) ∈ db5.masteryStates ∧
    (6/10 : ℚ) ≤ (mkS 7 2 (95/100) 0 0 1 10).masteryScore ∧
    (mkC 3 1 "s" 2 []) ∈ eligibleConcepts (6/10) db5 7 (some 1) ∧
    graphSelectNext (6/10) db5 7 (some 1) ≠ some (mkC 3 1 "s" 2 []) := by
  with_unfolding_all decide

/-- C5 (amended): when the most recent state has frustration > 0.7, the
selector returns the prerequisite of the current concept whose MasteryState
has the lowest mastery score — whether or not that prerequisite is mastered
— and considers same-course siblings (lowest `(mastery, last_seen)` first)
only when no prerequisite has a MasteryState at all. -/
theorem frustration_pivot_rule (θ : ℚ) (db : DB) (u : UserId)
    (course : Option CourseId) (cur : MasteryState) (curC : Concept)
    (h1 : currentState db u = some cur)
    (h2 : 7/10 < cur.frustrationScore)
    (h3 : conceptById db cur.conceptId = some curC) :
    (∀ pst p,
      (sortBy (fun a b => decide (a.masteryScore ≤ b.masteryScore))
          (prereqStatesOf db u curC)).head? = some pst →
      conceptById db pst.conceptId = some p →
      graphSelectNext θ db u course = some p ∧
        pst ∈ prereqStatesOf db u curC ∧
        ∀ q ∈ prereqStatesOf db u curC, pst.masteryScore ≤ q.masteryScore) ∧
    (prereqStatesOf db u curC = [] →
      ∀ sib,
        selectLowestMastery db u ((eligibleConcepts θ db u course).filter
          (fun c => c.courseId == curC.courseId && c.id != cur.conceptId)) = some sib →
        graphSelectNext θ db u course = some sib ∧
          sib ∈ (eligibleConcepts θ db u course).filter
            (fun c => c.courseId == curC.courseId && c.id != cur.conceptId) ∧
          ∀ c ∈ (eligibleConcepts θ db u course).filter
            (fun c => c.courseId == curC.courseId && c.id != cur.conceptId),
            pairLe (lowestMasteryKey db u sib) (lowestMasteryKey db u c) = true) := by
  constructor
  · intro pst p hsort hcid
    have hres : graphSelectNext θ db u course = some p := by
      simp only [graphSelectNext]
      rw [h1]
      dsimp only
      rw [if_pos h2]
      simp only [pivotFromFrustration]
      rw [h3]
      dsimp only
      rw [hsort]
      dsimp only
      rw [hcid]
    have hmin := head_sortBy_min _ masteryLe_trans masteryLe_total
      (prereqStatesOf db u curC) pst hsort
    exact ⟨hres, hmin.1, fun q hq => by
      have := hmin.2 q hq
      simpa using this⟩
  · intro hempty sib hsib
    have hne : ((eligibleConcepts θ db u course).filter
        (fun c => c.courseId == curC.courseId && c.id != cur.conceptId)).isEmpty = false := by
      cases hc : (eligibleConcepts θ db u course).filter
          (fun c => c.courseId == curC.courseId && c.id != cur.conceptId) with
      | nil =>
          rw [hc] at hsib
          unfold selectLowestMastery at hsib
          cases hsib
      | cons a t => rfl
    have hres : graphSelectNext θ db u course = some sib := by
      simp only [graphSelectNext]
      rw [h1]
      dsimp only
      rw [if_pos h2]
      simp only [pivotFromFrustration]
      rw [h3]
      dsimp only
      rw [hempty]
      simp only [sortBy, List.head?_nil]
      rw [if_neg (by rw [hne]; exact Bool.false_ne_true)]
      rw [hsib]
    have hmin := head_sortBy_min
      (fun a b => pairLe (lowestMasteryKey db u a) (lowestMasteryKey db u b))
      (fun a b c => pairLe_trans _ _ _)
      (fun a b => pairLe_total _ _)
      ((eligibleConcepts θ db u course).filter
        (fun c => c.courseId == curC.courseId && c.id != cur.conceptId))
      sib hsib
    exact ⟨hres, hmin.1, hmin.2⟩

/-- C5 witness: with frustration 0.75, a prerequisite whose state has
mastery 0.2 is returned over a same-course sibling at mastery 0.5. -/
theorem frustration_pivot_rule_witness :
    graphSelectNext (6/10) db5w 7 (some 1) = some (mkC 2 1 "p" 1 []) ∧
    (mkS 7 2 (2/10) 0 0 1 10).masteryScore = 2/10 ∧
    (mkS 7 3 (1/2) 0 0 1 20).masteryScore = 1/2 := by
  have h := (frustration_pivot_rule (6/10) db5w 7 (some 1)
    (mkS 7 1 (1/2) 0 (3/4) 1 100) (mkC 1 1 "c" 0 [2])
    (by with_unfolding_all decide)
    (by norm_num [mkS])
    (by with_unfolding_all decide)).1
    (mkS 7 2 (2/10) 0 0 1 10) (mkC 2 1 "p" 1 [])
    (by with_unfolding_all decide)
    (by with_unfolding_all decide)
  exact ⟨h.1, rfl, rfl⟩

/-! ### C6 — post-quiz guardrail -/

/-- C6: if the adapter suggests the concept just graded and the score is at
least 80, `recommend_next_concept_after_quiz` discards the suggestion and
returns the first course concept (in `(order_index, id)` order) whose
ordering index is strictly greater than the current concept's, or `none`
when no such concept exists. -/
theorem after_quiz_guardrail (db : DB) (u : UserId) (concept : Concept)
    (score : ℚ) (r : AiNextRec)
    (hs : 80 ≤ score) (hid : r.nextConceptId = some concept.id) :
    recommendNextAfterQuiz db u concept score (some r) =
      (courseConceptsOf db concept.courseId).find?
        (fun c => concept.orderIndex < c.orderIndex) := by
  unfold recommendNextAfterQuiz
  dsimp only
  rw [hid]
  by_cases hemp : (courseConceptsOf db concept.courseId).isEmpty
  · rw [if_pos hemp]
    rw [List.isEmpty_iff.mp hemp]
    rfl
  · rw [if_neg hemp]
    dsimp only
    cases hf : (courseConceptsOf db concept.courseId).find?
        (fun c => c.id == concept.id) with
    | none =>
        dsimp only
        unfold fallbackNextAfterQuiz
        rw [if_pos hs]
    | some nc =>
        have hnc : (nc.id == concept.id) = true := by
          have := List.find?_some hf
          exact this
        dsimp only
        rw [if_pos (by rw [hnc]; simp [hs])]
        dsimp only
        unfold fallbackNextAfterQuiz
        rw [if_pos hs]

/-- C6 witness: the adapter suggests the just-graded concept (id 2) with
score 95: the guardrail routes to the index-order fallback, which picks the
id-3 concept. -/
theorem after_quiz_guardrail_witness :
    recommendNextAfterQuiz db6 7 (mkC 2 1 "b" 1 []) 95
        (some { nextConceptId := some 2 }) =
      (courseConceptsOf db6 (mkC 2 1 "b" 1 []).courseId).find?
        (fun c => (mkC 2 1 "b" 1 []).orderIndex < c.orderIndex) ∧
    recommendNextAfterQuiz db6 7 (mkC 2 1 "b" 1 []) 95
        (some { nextConceptId := some 2 }) = some (mkC 3 1 "c" 2 []) :=
  ⟨after_quiz_guardrail db6 7 (mkC 2 1 "b" 1 []) 95 { nextConceptId := some 2 }
      (by norm_num) rfl,
   by with_unfolding_all decide⟩

/-! ### C7 — transactional atomicity of the update -/

-- the quiz update preserves row keys
theorem applyQuizToState_key (st : MasteryState) (s : ℚ) (now : Nat) :
    (applyQuizToState st s now).userId = st.userId ∧
    (applyQuizToState st s now).conceptId = st.conceptId := by
  unfold applyQuizToState
  split_ifs <;> exact ⟨rfl, rfl⟩

-- a keyed map-update commutes with the filter on the same key
theorem filter_map_keyed (l : List MasteryState) (u : UserId) (cid : ConceptId)
    (g : MasteryState → MasteryState)
    (hg : ∀ s, (g s).userId = s.userId ∧ (g s).conceptId = s.conceptId) :
    (l.map (fun s => if s.userId == u && s.conceptId == cid then g s else s)).filter
        (fun s => s.userId == u && s.conceptId == cid) =
      (l.filter (fun s => s.userId == u && s.conceptId == cid)).map g := by
  induction l with
  | nil => rfl
  | cons a t ih =>
      by_cases hk : (a.userId == u && a.conceptId == cid) = true
      · have hga : ((g a).userId == u && (g a).conceptId == cid) = true := by
          rw [(hg a).1, (hg a).2]
          exact hk
        simp only [List.map_cons, if_pos hk, List.filter_cons, hga, hk,
          if_true, ih]
      · have hk' : (a.userId == u && a.conceptId == cid) = false :=
          Bool.not_eq_true _ ▸ Bool.eq_false_iff.mpr hk
        simp only [List.map_cons, if_neg hk, List.filter_cons, hk', ih,
          Bool.false_eq_true, if_false]

-- get_or_create leaves the other tables alone
theorem getOrCreate_quizAttempts (db : DB) (u : UserId) (cid : ConceptId)
    (now : Nat) : (getOrCreateState db u cid now).2.quizAttempts = db.quizAttempts := by
  unfold getOrCreateState
  cases stateFor db u cid <;> rfl

theorem getOrCreate_concepts (db : DB) (u : UserId) (cid : ConceptId)
    (now : Nat) : (getOrCreateState db u cid now).2.concepts = db.concepts := by
  unfold getOrCreateState
  cases stateFor db u cid <;> rfl

-- after a successful update the stored row is the updated fetched row
theorem stateFor_update (db : DB) (u : UserId) (concept : Concept)
    (score : ℚ) (now : Nat) :
    stateFor (updateMasteryAfterQuiz db u concept score now) u concept.id =
      some (applyQuizToState (getOrCreateState db u concept.id now).1
        (clampScore100 score) now) := by
  have hms : (updateMasteryAfterQuiz db u concept score now).masteryStates =
      ((getOrCreateState db u concept.id now).2.masteryStates).map
        (fun s => if s.userId == u && s.conceptId == concept.id then
          applyQuizToState s (clampScore100 score) now else s) := rfl
  unfold stateFor
  rw [hms, filter_map_keyed _ u concept.id _
    (fun s => applyQuizToState_key s (clampScore100 score) now), List.head?_map]
  cases hsf : stateFor db u concept.id with
  | some s0 =>
      have h2 : getOrCreateState db u concept.id now = (s0, db) := by
        unfold getOrCreateState
        rw [hsf]
      rw [h2]
      have hh : (db.masteryStates.filter
          (fun s => s.userId == u && s.conceptId == concept.id)).head? = some s0 := hsf
      rw [hh]
      rfl
  | none =>
      have h2 : getOrCreateState db u concept.id now =
          (defaultState u concept.id now,
            { db with masteryStates :=
                db.masteryStates ++ [defaultState u concept.id now] }) := by
        unfold getOrCreateState
        rw [hsf]
      rw [h2]
      have hnil : db.masteryStates.filter
          (fun s => s.userId == u && s.conceptId == concept.id) = [] :=
        List.head?_eq_none_iff.mp hsf
      rw [List.filter_append, hnil]
      have hd : ((defaultState u concept.id now).userId == u &&
          (defaultState u concept.id now).conceptId == concept.id) = true := by
        simp [defaultState]
      simp [List.filter, hd]

-- the successful update appends exactly one QuizAttempt row
theorem update_quizAttempts (db : DB) (u : UserId) (concept : Concept)
    (score : ℚ) (now : Nat) :
    (updateMasteryAfterQuiz db u concept score now).quizAttempts =
      db.quizAttempts ++ [mkQuizAttempt u concept.id (clampScore100 score) now] := by
  show (getOrCreateState db u concept.id now).2.quizAttempts ++
      [mkQuizAttempt u concept.id (clampScore100 score) now] = _
  rw [getOrCreate_quizAttempts]

/-- C7: the MasteryState mutation and the QuizAttempt insertion sit inside
one `transaction.atomic()` block: if the body fails partway the database is
unchanged (no QuizAttempt row, MasteryState untouched), and on success both
effects are applied — the attempt row is appended and the (user, concept)
state row holds the updated scores. -/
theorem update_after_quiz_atomic (db : DB) (u : UserId) (concept : Concept)
    (score : ℚ) (now : Nat) (failed : Bool) :
    (transactionAtomic (updateQuizSteps u concept score now) db failed = db ∨
      transactionAtomic (updateQuizSteps u concept score now) db failed =
        updateMasteryAfterQuiz db u concept score now) ∧
    (failed = true →
      transactionAtomic (updateQuizSteps u concept score now) db failed = db) ∧
    (failed = false →
      (updateMasteryAfterQuiz db u concept score now).quizAttempts =
        db.quizAttempts ++ [mkQuizAttempt u concept.id (clampScore100 score) now] ∧
      stateFor (updateMasteryAfterQuiz db u concept score now) u concept.id =
        some (applyQuizToState (getOrCreateState db u concept.id now).1
          (clampScore100 score) now)) := by
  refine ⟨?_, ?_, ?_⟩
  · cases failed
    · exact Or.inr rfl
    · exact Or.inl rfl
  · intro hf
    subst hf
    rfl
  · intro _
    exact ⟨update_quizAttempts db u concept score now,
      stateFor_update db u concept score now⟩

/-- C7 witness: a rolled-back run leaves the snapshot unchanged; a
committed run appends the QuizAttempt row. -/
theorem update_after_quiz_atomic_witness :
    transactionAtomic (updateQuizSteps 7 (mkC 1 1 "a" 0 []) 95 42) db6 true = db6 ∧
    (updateMasteryAfterQuiz db6 7 (mkC 1 1 "a" 0 []) 95 42).quizAttempts =
      db6.quizAttempts ++ [mkQuizAttempt 7 (mkC 1 1 "a" 0 []).id
        (clampScore100 95) 42] :=
  ⟨(update_after_quiz_atomic db6 7 (mkC 1 1 "a" 0 []) 95 42 true).2.1 rfl,
   ((update_after_quiz_atomic db6 7 (mkC 1 1 "a" 0 []) 95 42 false).2.2 rfl).1⟩

/-! ### C8 — selection for a user with no MasteryState rows -/

-- with no rows for the user, every user-scoped query is empty
theorem userId_false_of_no_userStates (db : DB) (u : UserId)
    (h : userStates db u = []) :
    ∀ s ∈ db.masteryStates, (s.userId == u) = false := by
  intro s hs
  have := List.filter_eq_nil_iff.mp h s hs
  exact Bool.eq_false_iff.mpr this

theorem stateFor_none_of_no_userStates (db : DB) (u : UserId)
    (h : userStates db u = []) (cid : ConceptId) : stateFor db u cid = none := by
  unfold stateFor
  have hnil : db.masteryStates.filter
      (fun s => s.userId == u && s.conceptId == cid) = [] := by
    rw [List.filter_eq_nil_iff]
    intro s hs
    rw [userId_false_of_no_userStates db u h s hs]
    simp
  rw [hnil]
  rfl

/-- C8 counterexample: a user with no MasteryState rows asks for course 1,
whose lowest-index concept (index 0) has a prerequisite; the selector
returns the prerequisite-free concept at index 1, not the course's
lowest-index concept — eligibility is applied before the ordering. -/
theorem no_states_lowest_index_counterexample :
    userStates db8 7 = [] ∧
    graphSelectNext (6/10) db8 7 (some 1) = some (mkC 2 1 "b" 1 []) ∧
    (mkC 1 1 "a" 0 [2]) ∈ db8.concepts ∧
    (mkC 1 1 "a" 0 [2]).isActive = true ∧
    (mkC 1 1 "a" 0 [2]).courseId = 1 ∧
    (mkC 1 1 "a" 0 [2]).orderIndex < (mkC 2 1 "b" 1 []).orderIndex := by
  with_unfolding_all decide

/-- C8 (amended): for a user with no MasteryState rows, the eligible set is
exactly the active (course-scoped) concepts with no prerequisites, and
`select_next_concept` returns the first of them in the concept table's
`(order_index, title)` ordering; only when no concept is eligible does it
return the active course concept with the lowest `order_index`. -/
theorem select_next_no_states (θ : ℚ) (db : DB) (u : UserId)
    (course : Option CourseId) (h : userStates db u = []) :
    eligibleConcepts θ db u course
        = (activeConcepts db course).filter (fun c => c.prereqIds.isEmpty) ∧
    graphSelectNext θ db u course =
      (if (eligibleConcepts θ db u course).isEmpty then
        (sortBy (fun a b => decide (a.orderIndex ≤ b.orderIndex))
          ((db.concepts.filter (fun c => c.isActive)).filter
            (fun c => match course with
              | none => true
              | some cid => c.courseId == cid))).head?
      else (eligibleConcepts θ db u course).head?) := by
  have huser := userId_false_of_no_userStates db u h
  have hpart1 : eligibleConcepts θ db u course
      = (activeConcepts db course).filter (fun c => c.prereqIds.isEmpty) := by
    unfold eligibleConcepts
    apply List.filter_congr
    intro c _
    unfold prereqsMastered
    by_cases hemp : c.prereqIds.isEmpty
    · rw [if_pos hemp, hemp]
    · rw [if_neg hemp]
      have hm : db.masteryStates.filter (fun s =>
          s.userId == u && c.prereqIds.contains s.conceptId &&
            decide (θ ≤ s.masteryScore)) = [] := by
        rw [List.filter_eq_nil_iff]
        intro s hs
        rw [huser s hs]
        simp
      rw [hm]
      cases hl : c.prereqIds with
      | nil => rw [hl] at hemp; exact absurd rfl hemp
      | cons x t => simp
  refine ⟨hpart1, ?_⟩
  have hcur : currentState db u = none := by
    unfold currentState
    rw [h]
    rfl
  simp only [graphSelectNext]
  rw [hcur]
  dsimp only
  by_cases hemp : (eligibleConcepts θ db u course).isEmpty
  · rw [if_pos hemp, if_pos hemp]
    simp only [fallbackPrerequisite]
    by_cases hcs : ((db.concepts.filter (fun c => c.isActive)).filter
        (fun c => match course with
          | none => true
          | some cid => c.courseId == cid)).isEmpty
    · rw [if_pos hcs]
      rw [List.isEmpty_iff.mp hcs]
      rfl
    · rw [if_neg hcs]
      have hsts : db.masteryStates.filter (fun s =>
          s.userId == u && ((db.concepts.filter (fun c => c.isActive)).filter
            (fun c => match course with
              | none => true
              | some cid => c.courseId == cid)).any
                (fun c => c.id == s.conceptId)) = [] := by
        rw [List.filter_eq_nil_iff]
        intro s hs
        rw [huser s hs]
        simp
      rw [hsts]
      rfl
  · rw [if_neg hemp, if_neg hemp]
    unfold selectLowestMastery
    have hall : ∀ a b : Concept,
        pairLe (lowestMasteryKey db u a) (lowestMasteryKey db u b) = true := by
      intro a b
      unfold lowestMasteryKey
      rw [stateFor_none_of_no_userStates db u h a.id,
        stateFor_none_of_no_userStates db u h b.id]
      simp [pairLe]
    rw [sortBy_of_pairwise _ _ (pairwise_of_all hall _)]

/-- C8 witness: the amended rule evaluated on the C8 snapshot — the
eligible set is the single no-prerequisite concept and it is returned. -/
theorem select_next_no_states_witness :
    eligibleConcepts (6/10) db8 7 (some 1)
        = (activeConcepts db8 (some 1)).filter (fun c => c.prereqIds.isEmpty) ∧
    graphSelectNext (6/10) db8 7 (some 1) =
      (if (eligibleConcepts (6/10) db8 7 (some 1)).isEmpty then
        (sortBy (fun a b => decide (a.orderIndex ≤ b.orderIndex))
          ((db8.concepts.filter (fun c => c.isActive)).filter
            (fun c => match (some 1 : Option CourseId) with
              | none => true
              | some cid => c.courseId == cid))).head?
      else (eligibleConcepts (6/10) db8 7 (some 1)).head?) :=
  select_next_no_states (6/10) db8 7 (some 1) (by with_unfolding_all decide)

/-! ### C9 — determinism without the adapter -/

/-- C9: with the Recommendation Adapter not configured, both selection
entry points are pure functions of the (Concept, MasteryState, QuizAttempt)
snapshot: equal snapshots give equal results — there is no hidden
randomness in the fallback paths (including the deterministic local scoring
inside `recommend_concepts`). -/
theorem no_adapter_deterministic (θ : ℚ) (u : UserId) (course : Option CourseId)
    (db1 db2 : DB)
    (hc : db1.concepts = db2.concepts)
    (hm : db1.masteryStates = db2.masteryStates)
    (hq : db1.quizAttempts = db2.quizAttempts) :
    engineSelectNextNoAzure θ db1 u course = engineSelectNextNoAzure θ db2 u course ∧
    ∀ (concept : Concept) (score : ℚ),
      recommendNextAfterQuizNoAzure db1 u concept score =
        recommendNextAfterQuizNoAzure db2 u concept score := by
  have hdb : db1 = db2 := by
    cases db1
    cases db2
    simp_all
  subst hdb
  exact ⟨rfl, fun _ _ => rfl⟩

/-- C9 witness: two runs over the same snapshot agree, and the
adapter-free run is computable to a definite concept. -/
theorem no_adapter_deterministic_witness :
    engineSelectNextNoAzure (6/10) db3 7 (some 1) =
      engineSelectNextNoAzure (6/10) db3 7 (some 1) ∧
    recommendNextAfterQuizNoAzure db3 7 (mkC 1 1 "a" 0 []) 95 =
      recommendNextAfterQuizNoAzure db3 7 (mkC 1 1 "a" 0 []) 95 ∧
    (engineSelectNextNoAzure (6/10) db3 7 (some 1)).1 = some (mkC 1 1 "a" 0 []) :=
  ⟨(no_adapter_deterministic (6/10) 7 (some 1) db3 db3 rfl rfl rfl).1,
   (no_adapter_deterministic (6/10) 7 (some 1) db3 db3 rfl rfl rfl).2
     (mkC 1 1 "a" 0 []) 95,
   by with_unfolding_all decide⟩

/-! ### C10 — frame of update_mastery_after_quiz -/

-- the quiz update leaves the informational fields alone
theorem applyQuizToState_frame (st : MasteryState) (s : ℚ) (now : Nat) :
    (applyQuizToState st s now).aiRecommended = st.aiRecommended ∧
    (applyQuizToState st s now).createdAt = st.createdAt := by
  unfold applyQuizToState
  split_ifs <;> exact ⟨rfl, rfl⟩

-- under unique (user, concept) keys, the key filter returns the one row
theorem filter_key_singleton (l : List MasteryState) (u : UserId)
    (cid : ConceptId) (s : MasteryState)
    (hnd : (l.map (fun x => (x.userId, x.conceptId))).Nodup)
    (hs : s ∈ l) (h1 : s.userId = u) (h2 : s.conceptId = cid) :
    l.filter (fun x => x.userId == u && x.conceptId == cid) = [s] := by
  induction l with
  | nil => cases hs
  | cons a t ih =>
      rw [List.map_cons, List.nodup_cons] at hnd
      rcases List.mem_cons.mp hs with rfl | hst
      · rw [List.filter_cons, if_pos (by simp [h1, h2])]
        have ht : t.filter (fun x => x.userId == u && x.conceptId == cid) = [] := by
          rw [List.filter_eq_nil_iff]
          intro x hx hpx
          apply hnd.1
          rw [List.mem_map]
          refine ⟨x, hx, ?_⟩
          simp only [Bool.and_eq_true, beq_iff_eq] at hpx
          rw [hpx.1, hpx.2, h1, h2]
        rw [ht]
      · have hka : (a.userId == u && a.conceptId == cid) = false := by
          rw [Bool.eq_false_iff]
          intro hk
          apply hnd.1
          rw [List.mem_map]
          refine ⟨s, hst, ?_⟩
          simp only [Bool.and_eq_true, beq_iff_eq] at hk
          rw [hk.1, hk.2, h1, h2]
        rw [List.filter_cons, hka]
        simp only [Bool.false_eq_true, if_false]
        exact ih hnd.2 hst

/-- C10: `update_mastery_after_quiz` touches only the single (user,
concept) MasteryState row it targets, changing only attempts, last_seen
and the three scores: the row's `ai_recommended` and `created_at` are
preserved, every other MasteryState row is untouched (in both directions),
the concept table is untouched, and the quiz ledger only gains the one new
row. -/
theorem update_after_quiz_frame (db : DB) (u : UserId) (concept : Concept)
    (score : ℚ) (now : Nat) (hnd : keysNodup db) :
    (updateMasteryAfterQuiz db u concept score now).concepts = db.concepts ∧
    (∀ s ∈ db.masteryStates, ¬(s.userId = u ∧ s.conceptId = concept.id) →
      s ∈ (updateMasteryAfterQuiz db u concept score now).masteryStates) ∧
    (∀ s ∈ (updateMasteryAfterQuiz db u concept score now).masteryStates,
      ¬(s.userId = u ∧ s.conceptId = concept.id) → s ∈ db.masteryStates) ∧
    (∀ s ∈ db.masteryStates, s.userId = u → s.conceptId = concept.id →
      stateFor (updateMasteryAfterQuiz db u concept score now) u concept.id =
        some (applyQuizToState s (clampScore100 score) now) ∧
      (applyQuizToState s (clampScore100 score) now).aiRecommended =
        s.aiRecommended ∧
      (applyQuizToState s (clampScore100 score) now).createdAt = s.createdAt) ∧
    (updateMasteryAfterQuiz db u concept score now).quizAttempts =
      db.quizAttempts ++ [mkQuizAttempt u concept.id (clampScore100 score) now] := by
  have hms : (updateMasteryAfterQuiz db u concept score now).masteryStates =
      ((getOrCreateState db u concept.id now).2.masteryStates).map
        (fun s => if s.userId == u && s.conceptId == concept.id then
          applyQuizToState s (clampScore100 score) now else s) := rfl
  refine ⟨?_, ?_, ?_, ?_, update_quizAttempts db u concept score now⟩
  · show (getOrCreateState db u concept.id now).2.concepts = db.concepts
    exact getOrCreate_concepts db u concept.id now
  · intro s hs hkey
    rw [hms]
    have hsk : (s.userId == u && s.conceptId == concept.id) = false := by
      rw [Bool.eq_false_iff]
      intro hk
      simp only [Bool.and_eq_true, beq_iff_eq] at hk
      exact hkey hk
    have hmem : s ∈ (getOrCreateState db u concept.id now).2.masteryStates := by
      unfold getOrCreateState
      cases stateFor db u concept.id with
      | some s0 => exact hs
      | none => exact List.mem_append_left _ hs
    rw [List.mem_map]
    exact ⟨s, hmem, by rw [hsk]; simp⟩
  · intro s hs hkey
    rw [hms, List.mem_map] at hs
    rcases hs with ⟨a, ha, hfa⟩
    by_cases hk : (a.userId == u && a.conceptId == concept.id) = true
    · exfalso
      rw [if_pos hk] at hfa
      apply hkey
      simp only [Bool.and_eq_true, beq_iff_eq] at hk
      rw [← hfa]
      have := applyQuizToState_key a (clampScore100 score) now
      rw [this.1, this.2]
      exact hk
    · rw [if_neg hk] at hfa
      subst hfa
      revert ha
      unfold getOrCreateState
      cases stateFor db u concept.id with
      | some s0 => exact fun ha => ha
      | none =>
          intro ha
          rcases List.mem_append.mp ha with ha' | hd
          · exact ha'
          · exfalso
            apply hk
            have : a = defaultState u concept.id now := by simpa using hd
            rw [this]
            simp [defaultState]
  · intro s hs h1 h2
    refine ⟨?_, applyQuizToState_frame s (clampScore100 score) now⟩
    have hsing : db.masteryStates.filter
        (fun x => x.userId == u && x.conceptId == concept.id) = [s] :=
      filter_key_singleton db.masteryStates u concept.id s hnd hs h1 h2
    have hsf : stateFor db u concept.id = some s := by
      unfold stateFor
      rw [hsing]
      rfl
    have hgoc : (getOrCreateState db u concept.id now).1 = s := by
      unfold getOrCreateState
      rw [hsf]
    have := stateFor_update db u concept score now
    rw [hgoc] at this
    exact this

/-- C10 witness: the frame conditions evaluated on a two-user snapshot —
the other user's row survives the update untouched. -/
theorem update_after_quiz_frame_witness :
    (updateMasteryAfterQuiz db5 7 (mkC 1 1 "c" 0 [2]) 95 200).concepts
        = db5.concepts ∧
    stateFor (updateMasteryAfterQuiz db5 7 (mkC 1 1 "c" 0 [2]) 95 200) 7 1 =
      some (applyQuizToState (mkS 7 1 (1/2) 0 (3/4) 1 100)
        (clampScore100 95) 200) := by
  have h := update_after_quiz_frame db5 7 (mkC 1 1 "c" 0 [2]) 95 200
    (by with_unfolding_all decide)
  refine ⟨h.1, ?_⟩
  exact (h.2.2.2.1 (mkS 7 1 (1/2) 0 (3/4) 1 100)
    (by with_unfolding_all decide) rfl rfl).1

end MasteryForge
